import Mathlib

/-!
Verification development for the cumstack UI framework.

This file embeds, as executable Lean definitions, the framework's reactive
core (`createMoan`, `onClimax`, `knotMemo`, `batch`, `untrack` from
`src/app/shared/reactivity.js`), its async resource (`loadShot`), the
hydration/reconciliation engine (`hydrateDOMElement`,
`createDOMElementForHydration`, `nodesMatch` from `src/app/client.js`) and
the two `cowgirl` mount functions (`src/app/client.js` and
`src/app/client/index.js`), and proves theorems about the specification
claims concerning them.
-/

/-! ## Reactive core: state and values -/

abbrev SigId := Nat
abbrev EffId := Nat

/-- JavaScript primitive values as they occur in the reactive core.  Equality
of `JSVal` models the `Object.is` comparison the source performs on these
variants (floating point NaN and signed zero are outside the model). -/
inductive JSVal where
  | undef
  | jnull
  | jbool (b : Bool)
  | jint (n : Int)
  | jstr (s : String)
deriving DecidableEq, Repr

/-- Observable events recorded while the reactive machine runs: an effect
body starting to execute (`run`), a caught effect error being logged by
`console.error` (`errlog`), and a signal value actually being replaced by a
different one (`sigchange`). -/
inductive REv where
  | run (e : EffId)
  | errlog (e : EffId)
  | sigchange (s : SigId)
deriving DecidableEq, Repr

/-- Deep embedding of the statements a user-supplied effect body or batch
body can perform against the reactive core: sequencing, tracked signal
reads, literal and updater writes, throwing, invoking an effect directly,
entering a `batch` region, a conditional on a tracked read, and the body
that `knotMemo` installs in its internal effect (`memoBody src f out cell`
embeds the effect body of `knotMemo(() => f(src()))`, whose closure
variables `cached`/`initialized` live in the state's `cells`/`inits`). -/
inductive Prog where
  | skip
  | seq (p q : Prog)
  | read (s : SigId)
  | write (s : SigId) (v : JSVal)
  | writeF (s : SigId) (f : JSVal → JSVal)
  | throwE
  | runEff (e : EffId)
  | batchP (p : Prog)
  | iteV (s : SigId) (v : JSVal) (p q : Prog)
  | memoBody (src : SigId) (f : JSVal → JSVal) (out : SigId) (cell : Nat)

/-- The module-level mutable state of `reactivity.js` together with the
per-signal and per-effect closure state: `values`/`subs` are the `value`
and `subscribers` of every signal created by `createMoan`; `currentEffect`,
`effectStack`, `batchDepth`, `pending` are the module globals of the same
names; `sched` is whether the module global `schedule` currently holds the
deferring function installed by `batch` (`true`) or is `null` (`false`);
`disposed` is each effect's `disposed` flag; `cells`/`inits` are the
`cached`/`initialized` closure variables of memos; `trace` records the
observable events of the run so far. -/
structure RState where
  values : SigId → JSVal
  subs : SigId → List EffId
  currentEffect : Option EffId
  effectStack : List EffId
  batchDepth : Nat
  sched : Bool
  pending : List EffId
  disposed : EffId → Bool
  cells : Nat → JSVal
  inits : Nat → Bool
  trace : List REv

/-- Insertion into a JS `Set` kept as an insertion-ordered duplicate-free
list: adding an element already present leaves the set (and the element's
first-insertion position) unchanged. -/
def addOnce (e : EffId) (l : List EffId) : List EffId :=
  if e ∈ l then l else l ++ [e]

/-- The tracked part of `createMoan`'s `read`: if an effect is currently
running it is added to this signal's subscriber set. -/
def trackRead (s : SigId) (σ : RState) : RState :=
  match σ.currentEffect with
  | some e => {σ with subs := fun x => if x = s then addOnce e (σ.subs x) else σ.subs x}
  | none => σ

/-- `createMoan`'s `write` with the candidate value already computed,
parameterized by the effect runner `R` used when no batch is open: if the
candidate is `Object.is`-equal to the current value it returns at once;
otherwise it stores the value, records the change, snapshots the subscriber
set, and for each snapshot member still subscribed either defers it into
`pending` (when `schedule` is the batch deferral) or runs it immediately. -/
def doWriteAux (R : EffId → RState → RState) (s : SigId) (nv : JSVal) (σ : RState) : RState :=
  if nv = σ.values s then σ
  else
    let σ1 : RState :=
      {σ with values := fun x => if x = s then nv else σ.values x,
              trace := σ.trace ++ [REv.sigchange s]}
    (σ.subs s).foldl (fun st e =>
      if e ∈ st.subs s then
        if st.sched then {st with pending := addOnce e st.pending}
        else R e st
      else st) σ1

/-- The `untrack(() => batch(() => setSignal(result)))` call inside
`knotMemo`'s effect, restricted to its body (a single signal write): enter
the batch region (resetting `pending` on the outermost entry and installing
the deferring scheduler), perform the write, then restore the scheduler,
leave the region and drain `pending` if this was the outermost exit. -/
def batchedWriteAux (R : EffId → RState → RState) (s : SigId) (v : JSVal) (σ : RState) : RState :=
  let σ0 := if σ.batchDepth = 0 then {σ with pending := []} else σ
  let σ1 : RState := {σ0 with batchDepth := σ0.batchDepth + 1, sched := true}
  let σ2 := doWriteAux R s v σ1
  let σ3 : RState := {σ2 with sched := σ.sched, batchDepth := σ2.batchDepth - 1}
  if σ3.batchDepth = 0 then
    σ3.pending.foldl (fun st e => R e st) {σ3 with pending := []}
  else σ3

/-- Interpreter for `Prog`, parameterized by the effect runner `R`.  The
returned `Bool` is `true` when the program threw an exception that escaped.
The `batchP` case follows `batch` exactly (reset `pending` on the 0→1 depth
transition, run the body, then in the `finally` restore the scheduler,
decrement the depth and drain on the outermost exit, re-raising any
exception); `memoBody` follows `knotMemo`'s effect body exactly (tracked
read, recompute, compare against the cache with `Object.is`, and only on a
difference store the cache, write the output signal inside
`untrack(batch(...))` and set `initialized`). -/
def execPAux (R : EffId → RState → RState) : Prog → RState → RState × Bool
  | .skip, σ => (σ, false)
  | .seq p q, σ =>
      let r := execPAux R p σ
      if r.2 then r else execPAux R q r.1
  | .read s, σ => (trackRead s σ, false)
  | .write s v, σ => (doWriteAux R s v σ, false)
  | .writeF s f, σ => (doWriteAux R s (f (σ.values s)) σ, false)
  | .throwE, σ => (σ, true)
  | .runEff e, σ => (R e σ, false)
  | .batchP p, σ =>
      let σ0 := if σ.batchDepth = 0 then {σ with pending := []} else σ
      let σ1 : RState := {σ0 with batchDepth := σ0.batchDepth + 1, sched := true}
      let r := execPAux R p σ1
      let σ3 : RState := {r.1 with sched := σ.sched, batchDepth := r.1.batchDepth - 1}
      if σ3.batchDepth = 0 then
        (σ3.pending.foldl (fun st e => R e st) {σ3 with pending := []}, r.2)
      else (σ3, r.2)
  | .iteV s v p q, σ =>
      let σ1 := trackRead s σ
      if σ.values s = v then execPAux R p σ1 else execPAux R q σ1
  | .memoBody src f out cell, σ =>
      let σ1 := trackRead src σ
      let r := f (σ.values src)
      if σ.inits cell = false ∨ r ≠ σ.cells cell then
        let σ2 : RState := {σ1 with cells := fun c => if c = cell then r else σ1.cells c}
        let σ4 := batchedWriteAux R out r {σ2 with currentEffect := none}
        let σ5 : RState := {σ4 with currentEffect := σ2.currentEffect}
        ({σ5 with inits := fun c => if c = cell then true else σ5.inits c}, false)
      else (σ1, false)

/-- The effect closure built by `onClimax(fn)`, with `env e` the body of
effect `e` and `fuel` bounding the recursion depth of synchronous nested
effect runs: a disposed effect returns immediately; otherwise the effect
pushes itself, becomes current, runs its body, logs (but swallows) any
exception, and in the `finally` pops the stack and restores `currentEffect`
to the new stack top (or `null`).  Cleanup callbacks are not modelled (the
claims under verification involve bodies that return no cleanup). -/
def runEffectN (env : EffId → Prog) : Nat → EffId → RState → RState
  | 0, _, σ => σ
  | fuel + 1, e, σ =>
      if σ.disposed e then σ
      else
        let σ1 : RState :=
          {σ with effectStack := σ.effectStack ++ [e],
                  currentEffect := some e, trace := σ.trace ++ [REv.run e]}
        let r := execPAux (runEffectN env fuel) (env e) σ1
        let σ3 := if r.2 then {r.1 with trace := r.1.trace ++ [REv.errlog e]} else r.1
        {σ3 with effectStack := σ3.effectStack.dropLast,
                 currentEffect := σ3.effectStack.dropLast.getLast?}

/-- Run a program with the effect runner at the given fuel. -/
def runP (env : EffId → Prog) (fuel : Nat) (p : Prog) (σ : RState) : RState × Bool :=
  execPAux (runEffectN env fuel) p σ

/-- The disposer returned by `onClimax`: sets the `disposed` flag (the
cleanup list it also flushes is not modelled). -/
def disposeEff (e : EffId) (σ : RState) : RState :=
  {σ with disposed := fun i => if i = e then true else σ.disposed i}

/-- A quiescent initial state: given signal values, no subscribers, no
running effect, no open batch, `schedule` null, nothing pending. -/
def initRState (vals : SigId → JSVal) : RState :=
  { values := vals, subs := fun _ => [], currentEffect := none, effectStack := [],
    batchDepth := 0, sched := false, pending := [], disposed := fun _ => false,
    cells := fun _ => JSVal.undef, inits := fun _ => false, trace := [] }

/-- The effect ids, in order, of the effect-body runs recorded in a trace. -/
def runsOf (tr : List REv) : List EffId :=
  tr.filterMap fun ev => match ev with | .run e => some e | _ => none

/-- Programs built from writes, updater writes, sequencing and nested
`batch` regions only — the shape of a function handed to `batch` that
performs signal writes (possibly inside further nested batches). -/
def onlyBW : Prog → Bool
  | .skip => true
  | .seq p q => onlyBW p && onlyBW q
  | .write _ _ => true
  | .writeF _ _ => true
  | .batchP p => onlyBW p
  | _ => false

/-- Effect bodies that neither write signals nor invoke effects or batches:
running such a body can subscribe and throw but never triggers further
effect runs. -/
def inert : Prog → Bool
  | .skip => true
  | .seq p q => inert p && inert q
  | .read _ => true
  | .iteV _ _ p q => inert p && inert q
  | .throwE => true
  | _ => false

/-- A straight-line sequence of signal writes. -/
def writesProg : List (SigId × JSVal) → Prog
  | [] => .skip
  | sv :: ws => .seq (.write sv.1 sv.2) (writesProg ws)

/-- The state just after `batch` has performed its outermost-entry setup:
fresh pending set, incremented depth, deferring scheduler installed. -/
def batchEnter (σ : RState) : RState :=
  {σ with pending := [], batchDepth := σ.batchDepth + 1, sched := true}

/-! ## Async resource: `loadShot` -/

/-- The signal values and cancellation state of one resource created by
`loadShot`: the `data`, `loading` and `error` signals' values, the fired
flag of every `AbortController` the resource has created (indexed by
creation order), the current controller (if any), and the next controller
index.  Subscriber bookkeeping of the three signals is orthogonal to the
claims about cancellation and is omitted. -/
structure ResState where
  dataV : JSVal
  errorV : JSVal
  loadingV : JSVal
  aborted : Nat → Bool
  ctrl : Option Nat
  nextId : Nat

/-- `controller?.abort()`: fire the current controller's abort flag, if a
controller exists; the `controller` variable itself is not cleared. -/
def abortCtrl (σ : ResState) : ResState :=
  match σ.ctrl with
  | some k => {σ with aborted := fun i => if i = k then true else σ.aborted i}
  | none => σ

/-- The atomic steps of a resource's lifetime on the single JS thread:
`refetch` is the synchronous prefix of a `refetch()` call up to the `await`
(abort the previous controller, install a fresh one, set loading/clear
error inside a batch); `settleOk k v`/`settleErr k e` are the resumption of
the fetch started with controller `k` when its promise resolves/rejects
(the guarded `setData`/`setError` batch followed immediately — with no
intervening await — by the guarded `setLoading(false)` of the `finally`);
`dispose` is the returned `dispose` function. -/
inductive RStep where
  | refetch
  | settleOk (k : Nat) (v : JSVal)
  | settleErr (k : Nat) (e : JSVal)
  | dispose
deriving DecidableEq, Repr

/-- One step of the `loadShot` state machine, read off the source of
`refetch`/`dispose`: every signal write after a settlement is guarded by
`if (!signal.aborted)` on the controller captured when that fetch began. -/
def stepR : RStep → ResState → ResState
  | .refetch, σ =>
      let σ1 := abortCtrl σ
      {σ1 with ctrl := some σ1.nextId, nextId := σ1.nextId + 1,
               loadingV := JSVal.jbool true, errorV := JSVal.jnull}
  | .settleOk k v, σ =>
      let σ1 := if σ.aborted k then σ else {σ with dataV := v}
      if σ1.aborted k then σ1 else {σ1 with loadingV := JSVal.jbool false}
  | .settleErr k e, σ =>
      let σ1 := if σ.aborted k then σ else {σ with errorV := e}
      if σ1.aborted k then σ1 else {σ1 with loadingV := JSVal.jbool false}
  | .dispose, σ => abortCtrl σ

/-- Run a sequence of resource steps in order. -/
def runSteps (l : List RStep) (σ : ResState) : ResState :=
  l.foldl (fun s st => stepR st s) σ

/-- The observable signal values of a resource: `(data, error, loading)`. -/
def signalsOf (σ : ResState) : JSVal × JSVal × JSVal :=
  (σ.dataV, σ.errorV, σ.loadingV)

/-- A freshly constructed resource with `initialValue = null`, before any
fetch has started. -/
def resInit : ResState :=
  { dataV := JSVal.jnull, errorV := JSVal.jnull, loadingV := JSVal.jbool false,
    aborted := fun _ => false, ctrl := none, nextId := 0 }

/-! ## Hydration/reconciliation engine -/

/-- Virtual nodes, restricted to the structural fragment the reconciliation
claims are about: primitive text (strings and numbers both hydrate as their
string rendering) and element nodes with an optional `key` prop and a
child sequence.  Tags are taken to be lower-case, and `key` values to be
truthy strings, matching what `hydrateDOMElement` compares. -/
inductive VNode where
  | text (s : String)
  | elem (tag : String) (key : Option String) (children : List VNode)

/-- Live DOM nodes in the same fragment: text nodes and elements carrying
the `data-key` attribute recorded by the engine. -/
inductive DNode where
  | dtext (s : String)
  | delem (tag : String) (key : Option String) (children : List DNode)

/-- A JS whitespace character as far as `String.prototype.trim` is
concerned, restricted to the usual ASCII whitespace. -/
def isWsChar (c : Char) : Bool :=
  decide (c = ' ') || decide (c = '\t') || decide (c = '\n') || decide (c = '\r')

/-- A whitespace-only text node, i.e. one for which
`!node.textContent.trim()` holds. -/
def isWsD : DNode → Bool
  | .dtext s => s.data.all isWsChar
  | .delem _ _ _ => false

/-- `nodesMatch(vnode, domNode)`: text vnodes match any text node; element
vnodes match elements with the same (lower-cased) tag, additionally
comparing keys when both the vnode `key` prop and the element's recorded
`data-key` are present. -/
def nodesMatch : VNode → DNode → Bool
  | .text _, .dtext _ => true
  | .text _, .delem _ _ _ => false
  | .elem _ _ _, .dtext _ => false
  | .elem t k _, .delem dt dk _ =>
      decide (dt = t) &&
        (match k, dk with
         | some kv, some dkv => decide (dkv = kv)
         | _, _ => true)

/-- Does the vnode declare a `key` prop (`vChild.props?.key`)? -/
def hasKey : VNode → Bool
  | .elem _ (some _) _ => true
  | _ => false

/-- `createDOMElementForHydration` on the modelled fragment, with fuel
bounding the tree depth (the placeholder at fuel 0 is never reached at
adequate fuel): fresh text node for a primitive, fresh element with
`data-key` set and children created recursively for an element vnode. -/
def createDF : Nat → VNode → DNode
  | 0, _ => .dtext ""
  | _ + 1, .text s => .dtext s
  | fuel + 1, .elem t k cs => .delem t k (cs.map (createDF fuel))

/-- `skipWhitespace` as a splitter: the run of leading whitespace-only text
nodes (which the cursor skips over but which stay in the document) and the
remaining siblings starting at the first significant node. -/
def skipWsSplit : List DNode → List DNode × List DNode
  | [] => ([], [])
  | d :: ds =>
      if isWsD d then
        let r := skipWsSplit ds
        (d :: r.1, r.2)
      else ([], d :: ds)

/-- The forward key search of the keyed-matching branch: scan the siblings
after the cursor for the first node matching the keyed vnode, returning the
nodes before it, the match, and the nodes after it. -/
def findKeyed (v : VNode) : List DNode → Option (List DNode × DNode × List DNode)
  | [] => none
  | d :: ds =>
      if nodesMatch v d then some ([], d, ds)
      else
        match findKeyed v ds with
        | some (b, f, a) => some (d :: b, f, a)
        | none => none

/-- The child-reconciliation `while` loop of `hydrateDOMElement`,
parameterized by the recursive hydrator `H` and the node creator `C`.
Arguments: remaining virtual children, the already-processed live prefix,
and the live siblings from the cursor on.  The second component counts the
calls to `createDOMElementForHydration`.  Faithful to the source,
including its behaviour in the two replace branches: after
`element.replaceChild(newChild, domChild)` the source reads
`domChild.nextSibling` from the now-detached node, which is `null`, so the
cursor dies, the remaining live siblings `rs` are never revisited (they
stay in the element after the replacement), and every remaining virtual
child is created from scratch and appended at the end. -/
def hydChildrenAux (H : VNode → DNode → DNode × Nat) (C : VNode → DNode) :
    List VNode → List DNode → List DNode → List DNode × Nat
  | [], done, rest => (done ++ rest.filter isWsD, 0)
  | v :: vs, done, rest =>
      let sp := skipWsSplit rest
      let done2 := done ++ sp.1
      match sp.2 with
      | [] => (done2 ++ (v :: vs).map C, vs.length + 1)
      | d :: rs =>
          if nodesMatch v d then
            let h := H v d
            let r := hydChildrenAux H C vs (done2 ++ [h.1]) rs
            (r.1, h.2 + r.2)
          else if hasKey v then
            match findKeyed v rs with
            | some (b, f, a) =>
                let h := H v f
                let r := hydChildrenAux H C vs (done2 ++ [h.1]) (d :: (b ++ a))
                (r.1, h.2 + r.2)
            | none => (done2 ++ [C v] ++ rs ++ vs.map C, vs.length + 1)
          else (done2 ++ [C v] ++ rs ++ vs.map C, vs.length + 1)

/-- `hydrateDOMElement` on the modelled fragment, with fuel bounding the
recursion depth.  A text vnode against a text node patches the content in
place; against an element it is replaced by a fresh text node (1 creation).
An element vnode against a text node, or against an element of a different
tag, is replaced by a freshly created element.  On a tag match the `key`
prop is recorded in `data-key` when absent and the children are
reconciled. -/
def hydrateNodeF : Nat → VNode → DNode → DNode × Nat
  | 0, _, d => (d, 0)
  | _ + 1, .text s, .dtext _ => (.dtext s, 0)
  | _ + 1, .text s, .delem _ _ _ => (.dtext s, 1)
  | fuel + 1, .elem t k cs, .dtext _ => (createDF (fuel + 1) (.elem t k cs), 1)
  | fuel + 1, .elem t k cs, .delem dt dk dcs =>
      if dt = t then
        let dk2 := match k, dk with
          | some kv, none => some kv
          | _, _ => dk
        let r := hydChildrenAux (hydrateNodeF fuel) (createDF fuel) cs [] dcs
        (.delem dt dk2 r.1, r.2)
      else (createDF (fuel + 1) (.elem t k cs), 1)

/-- Pairwise structural matching of a live child list against a virtual
child list, parameterized by the node matcher. -/
def matchesListAux (M : DNode → VNode → Bool) : List DNode → List VNode → Bool
  | [], [] => true
  | d :: ds, v :: vs => M d v && matchesListAux M ds vs
  | _, _ => false

/-- Structural equality of a live tree with a virtual tree, ignoring
whitespace-only text nodes of the live tree (the sense in which the spec
says one reconciliation pass must leave the live tree equal to the virtual
tree). -/
def matchesVF : Nat → DNode → VNode → Bool
  | 0, _, _ => false
  | fuel + 1, d, v =>
      match d, v with
      | .dtext t, .text s => decide (t = s)
      | .delem dt _ dcs, .elem t _ vcs =>
          decide (dt = t) &&
            matchesListAux (matchesVF fuel) (dcs.filter (fun x => !isWsD x)) vcs
      | _, _ => false

/-! ## The two `cowgirl` mount functions -/

/-- JavaScript references that may be passed (or resolved) as a mount
container: a real `HTMLElement`, some other non-element value, or `null`. -/
inductive JsRef where
  | htmlEl (id : Nat)
  | plainObj
  | nullRef
deriving DecidableEq, Repr

/-- A mount target as accepted by `cowgirl`: a selector string or a direct
reference. -/
abbrev MountTarget := Sum String JsRef

/-- Resolve the container argument exactly as `client.js`'s `cowgirl`
does: a string goes through `document.querySelector` (modelled by `doc`,
`none` for a `null` result), anything else is taken as-is. -/
def resolveContainer (doc : String → Option JsRef) : MountTarget → Option JsRef
  | .inl sel => doc sel
  | .inr r => some r

/-- `containerEl && containerEl instanceof HTMLElement`. -/
def isHTMLElement : Option JsRef → Bool
  | some (.htmlEl _) => true
  | _ => false

/-- The externally visible actions the two mount functions perform, in
order. -/
inductive MountAction where
  | createRouter
  | initRouter
  | createRenderEffect
  | initHmr
  | clearPreferredLanguage
  | setLanguage (lang : String) (explicitRoute : Bool)
  | setupNavigation
  | initComponents
deriving DecidableEq, Repr

namespace ClientJs

/-- The `cowgirl` of `src/app/client.js`: resolve the container, and if the
result is not a valid `HTMLElement` throw synchronously — before the router
is created/initialized or the render effect is constructed (the actions
listed in the success branch). -/
def cowgirl (doc : String → Option JsRef) (container : MountTarget) :
    Except String (List MountAction) :=
  let containerEl := resolveContainer doc container
  if isHTMLElement containerEl then
    Except.ok [MountAction.createRouter, MountAction.initRouter,
               MountAction.createRenderEffect]
  else Except.error "cumstack: Container must be a valid HTMLElement or selector"

end ClientJs

/-- `pathname.split("/")`: split a string at every slash (a reduction-friendly
rendering of `String.prototype.split`). -/
def splitSlashAux : List Char → List Char → List String
  | [], acc => [String.mk acc.reverse]
  | c :: cs, acc =>
      if c = '/' then String.mk acc.reverse :: splitSlashAux cs []
      else splitSlashAux cs (c :: acc)

/-- `pathname.split("/")` on a whole string. -/
def splitSlash (s : String) : List String := splitSlashAux s.data []

namespace ClientIndex

/-- The `cowgirl` of `src/app/client/index.js` — the one re-exported by the
package entry point (`export { cowgirl, ... } from './src/app/client/index.js'`).
It runs `initHMR`, inspects `window.location.pathname` for a two-letter
language segment (otherwise clearing the stored preference and falling back
to the user or browser language), calls `setLanguage`, `setupNavigation`
and `initComponents` — and never reads or validates its `container`
argument, so it cannot throw on an invalid mount target. -/
def cowgirl (pathname : String) (userLang : Option String) (browserLang : String)
    (container : MountTarget) : Except String (List MountAction) :=
  let _ := container
  let segments := (splitSlash pathname).filter (fun s => decide (s ≠ ""))
  match segments.head? with
  | some seg =>
      if seg.length = 2 then
        Except.ok [MountAction.initHmr, MountAction.setLanguage seg true,
                   MountAction.setupNavigation, MountAction.initComponents]
      else
        Except.ok [MountAction.initHmr, MountAction.clearPreferredLanguage,
                   MountAction.setLanguage (userLang.getD browserLang) false,
                   MountAction.setupNavigation, MountAction.initComponents]
  | none =>
      Except.ok [MountAction.initHmr, MountAction.clearPreferredLanguage,
                 MountAction.setLanguage (userLang.getD browserLang) false,
                 MountAction.setupNavigation, MountAction.initComponents]

end ClientIndex

/-! ## Concrete scenarios -/

/-- `n % 2` on JS integers: the memo computation of the spec's memo-purity
scenario. -/
def m2 : JSVal → JSVal
  | .jint n => .jint (n % 2)
  | v => v

/-- Effect environment for the memo scenario: effect 0 is the internal
effect of `knotMemo(() => s() % 2)` over source signal 0, output signal 1
and cache cell 0; effect 1 is an external subscriber `onClimax(() => m())`
reading the memo's output signal. -/
def envC6 : EffId → Prog :=
  fun e => if e = 0 then .memoBody 0 m2 1 0 else if e = 1 then .read 1 else .skip

/-- Memo scenario, initial state: source signal 0 holds `1`, the memo's
output signal 1 is still `undefined`. -/
def stC6init : RState := initRState (fun s => if s = 0 then .jint 1 else .undef)

/-- After `knotMemo` mounts its internal effect (`batch(effect)` inside
`onClimax`). -/
def stC6a : RState := (runP envC6 8 (.batchP (.runEff 0)) stC6init).1

/-- After the external subscriber mounts. -/
def stC6b : RState := (runP envC6 8 (.batchP (.runEff 1)) stC6a).1

/-- After the write `s = 3`. -/
def stC6c : RState := (runP envC6 8 (.write 0 (.jint 3)) stC6b).1

/-- After the write `s = 5`. -/
def stC6d : RState := (runP envC6 8 (.write 0 (.jint 5)) stC6c).1

/-- Effect environment for the error-containment scenario: effect 0 reads
signal 0 and then throws. -/
def envC7 : EffId → Prog :=
  fun e => if e = 0 then .seq (.read 0) .throwE else .skip

/-- Error scenario after mounting the throwing effect. -/
def stC7a : RState := (runP envC7 5 (.batchP (.runEff 0)) (initRState fun _ => .undef)).1

/-- Error scenario after a subsequent triggering write to signal 0. -/
def stC7b : RState := (runP envC7 5 (.write 0 (.jint 1)) stC7a).1

/-- Effect environment for the stale-subscription scenario: effect 0 reads
signal 1 and, only while it equals `0`, also reads signal 0 — so after
signal 1 changes, effect 0 no longer reads signal 0. -/
def envC5 : EffId → Prog :=
  fun e => if e = 0 then .iteV 1 (.jint 0) (.read 0) .skip else .skip

/-- Stale-subscription scenario after mounting effect 0 (it reads both
signals). -/
def stC5a : RState := (runP envC5 6 (.batchP (.runEff 0)) (initRState fun _ => .jint 0)).1

/-- After writing signal 1 := 1 (effect 0 re-runs and stops reading
signal 0). -/
def stC5b : RState := (runP envC5 6 (.write 1 (.jint 1)) stC5a).1

/-- After writing signal 0 := 9 — a run triggered by signal 0, after which
the claim says the stale subscription must be gone. -/
def stC5c : RState := (runP envC5 6 (.write 0 (.jint 9)) stC5b).1

/-- After disposing effect 0 and writing signal 0 := 10: the claim says a
disposed effect is absent from the subscriber set. -/
def stC5d : RState := (runP envC5 6 (.write 0 (.jint 10)) (disposeEff 0 stC5c)).1

/-- The virtual tree of the convergence failure: `<div><p></p>x</div>`. -/
def vC1 : VNode := .elem "div" none [.elem "p" none [], .text "x"]

/-- The live tree of the convergence failure: `<div><span></span>x</div>`. -/
def dC1 : DNode := .delem "div" none [.delem "span" none [], .dtext "x"]

/-- Keyed list item vnode of the keyed-reorder scenario. -/
def vLi (k : String) : VNode := .elem "li" (some k) []

/-- Keyed list item live node of the keyed-reorder scenario. -/
def dLi (k : String) : DNode := .delem "li" (some k) []

/-- Witness state for the batching claim: two signals (0 and 1) whose
subscriber sets both hold the single effect 5. -/
def stC2w : RState :=
  {initRState (fun _ => .jint 0) with subs := fun s => if s < 2 then [5] else []}

/-- Relation stating that a state transition touched at most the subscriber
sets (what running an inert effect body does, besides its own trace). -/
def OnlySubs (σ σ2 : RState) : Prop :=
  σ2.values = σ.values ∧ σ2.currentEffect = σ.currentEffect ∧
  σ2.effectStack = σ.effectStack ∧ σ2.batchDepth = σ.batchDepth ∧
  σ2.sched = σ.sched ∧ σ2.pending = σ.pending ∧ σ2.disposed = σ.disposed ∧
  σ2.cells = σ.cells ∧ σ2.inits = σ.inits ∧ σ2.trace = σ.trace

/-- Invariant relating a state to any state the interpreter can reach from
it: the effect stack is restored, subscriber sets only grow (subscriptions
are never removed anywhere in the reactive core), and the current effect is
either restored or equal to the (restored) stack's top. -/
def GrandInv (σ σ2 : RState) : Prop :=
  σ2.effectStack = σ.effectStack ∧
  (∀ s e, e ∈ σ.subs s → e ∈ σ2.subs s) ∧
  (σ2.currentEffect = σ.currentEffect ∨ σ2.currentEffect = σ.effectStack.getLast?)

/-! ## Helper lemmas -/

theorem runsOf_append (a b : List REv) : runsOf (a ++ b) = runsOf a ++ runsOf b := by
  simp [runsOf, List.filterMap_append]

theorem addOnce_nodup (e : EffId) (l : List EffId) (h : l.Nodup) : (addOnce e l).Nodup := by
  unfold addOnce
  split
  · exact h
  · next hni => simp [List.nodup_append, h, hni]

theorem foldl_inv {α β : Type} (P : β → Prop) (f : β → α → β)
    (hf : ∀ b a, P b → P (f b a)) : ∀ (l : List α) (b : β), P b → P (l.foldl f b) := by
  intro l
  induction l with
  | nil => intro b h; simpa using h
  | cons a as ih => intro b h; simpa using ih (f b a) (hf b a h)

theorem onlySubs_refl (σ : RState) : OnlySubs σ σ :=
  ⟨rfl, rfl, rfl, rfl, rfl, rfl, rfl, rfl, rfl, rfl⟩

theorem onlySubs_trans {σ σ1 σ2 : RState} (h1 : OnlySubs σ σ1) (h2 : OnlySubs σ1 σ2) :
    OnlySubs σ σ2 := by
  obtain ⟨a1, b1, c1, d1, e1, f1, g1, h1a, i1, j1⟩ := h1
  obtain ⟨a2, b2, c2, d2, e2, f2, g2, h2a, i2, j2⟩ := h2
  exact ⟨a2.trans a1, b2.trans b1, c2.trans c1, d2.trans d1, e2.trans e1,
         f2.trans f1, g2.trans g1, h2a.trans h1a, i2.trans i1, j2.trans j1⟩

theorem onlySubs_trackRead (s : SigId) (σ : RState) : OnlySubs σ (trackRead s σ) := by
  unfold trackRead
  split
  · exact ⟨rfl, rfl, rfl, rfl, rfl, rfl, rfl, rfl, rfl, rfl⟩
  · exact onlySubs_refl σ

/-- Running an inert body (no writes, no effect invocations, no batches)
changes nothing but subscriber sets. -/
theorem exec_inert (R : EffId → RState → RState) :
    ∀ (p : Prog), inert p = true → ∀ σ, OnlySubs σ (execPAux R p σ).1 := by
  intro p
  induction p with
  | skip => intro _ σ; exact onlySubs_refl σ
  | seq p q ihp ihq =>
      intro h σ
      simp only [inert, Bool.and_eq_true] at h
      simp only [execPAux]
      by_cases h2 : (execPAux R p σ).2
      · simp only [h2, if_true]
        exact ihp h.1 σ
      · simp only [h2, if_false]
        exact onlySubs_trans (ihp h.1 σ) (ihq h.2 _)
  | read s => intro _ σ; exact onlySubs_trackRead s σ
  | write s v => intro h σ; simp [inert] at h
  | writeF s f => intro h σ; simp [inert] at h
  | throwE => intro _ σ; exact onlySubs_refl σ
  | runEff e => intro h σ; simp [inert] at h
  | batchP p ih => intro h σ; simp [inert] at h
  | iteV s v p q ihp ihq =>
      intro h σ
      simp only [inert, Bool.and_eq_true] at h
      simp only [execPAux]
      by_cases hv : σ.values s = v
      · simp only [hv, if_true]
        exact onlySubs_trans (onlySubs_trackRead s σ) (ihp h.1 _)
      · simp only [hv, if_false]
        exact onlySubs_trans (onlySubs_trackRead s σ) (ihq h.2 _)
  | memoBody src f out cell => intro h σ; simp [inert] at h

/-- Running one non-disposed effect with an inert body appends exactly one
`run` event (plus possibly an error log) to the trace and leaves the
pending set, scheduler, batch depth and disposal flags untouched. -/
theorem runEffect_inert (env : EffId → Prog) (fuel : Nat) (e : EffId) (σ : RState)
    (hin : inert (env e) = true) (hd : σ.disposed e = false) :
    runsOf (runEffectN env (fuel + 1) e σ).trace = runsOf σ.trace ++ [e] ∧
    (runEffectN env (fuel + 1) e σ).pending = σ.pending ∧
    (runEffectN env (fuel + 1) e σ).sched = σ.sched ∧
    (runEffectN env (fuel + 1) e σ).batchDepth = σ.batchDepth ∧
    (runEffectN env (fuel + 1) e σ).disposed = σ.disposed := by
  have hb := exec_inert (runEffectN env fuel) (env e) hin
    {σ with effectStack := σ.effectStack ++ [e],
            currentEffect := some e, trace := σ.trace ++ [REv.run e]}
  obtain ⟨_, _, _, hdep, hsch, hpend, hdisp, _, _, htr⟩ := hb
  by_cases h2 : (execPAux (runEffectN env fuel) (env e)
      {σ with effectStack := σ.effectStack ++ [e],
              currentEffect := some e, trace := σ.trace ++ [REv.run e]}).2
  · simp only [runEffectN, hd, Bool.false_eq_true, if_false, h2, if_true]
    simp [htr, hpend, hsch, hdep, hdisp, runsOf_append, runsOf]
  · simp only [runEffectN, hd, Bool.false_eq_true, if_false, h2]
    simp [htr, hpend, hsch, hdep, hdisp, runsOf_append, runsOf]

/-- Draining a pending list of non-disposed effects with inert bodies runs
them in order, once each. -/
theorem drain_inert (env : EffId → Prog) (fuel : Nat) :
    ∀ (es : List EffId) (σ : RState),
    (∀ e ∈ es, inert (env e) = true) → (∀ e ∈ es, σ.disposed e = false) →
    runsOf ((es.foldl (fun st e => runEffectN env (fuel + 1) e st) σ)).trace =
      runsOf σ.trace ++ es ∧
    (es.foldl (fun st e => runEffectN env (fuel + 1) e st) σ).disposed = σ.disposed := by
  intro es
  induction es with
  | nil => intro σ _ _; simp
  | cons e rest ih =>
      intro σ hin hd
      have h1 := runEffect_inert env fuel e σ (hin e (by simp)) (hd e (by simp))
      have ih2 := ih (runEffectN env (fuel + 1) e σ)
        (fun x hx => hin x (by simp [hx]))
        (fun x hx => by rw [h1.2.2.2.2]; exact hd x (by simp [hx]))
      simp only [List.foldl_cons]
      refine ⟨?_, ih2.2.trans h1.2.2.2.2⟩
      rw [ih2.1, h1.1]
      simp

/-- While the deferring scheduler is installed, a write changes no
subscriber set, runs no effect (only `sigchange` events are recorded),
keeps the batch depth, and adds at most already-deduplicated entries to
`pending`. -/
theorem doWrite_defer (R : EffId → RState → RState) (s : SigId) (v : JSVal) (σ : RState)
    (h : σ.sched = true) :
    (doWriteAux R s v σ).sched = true ∧
    (doWriteAux R s v σ).batchDepth = σ.batchDepth ∧
    (doWriteAux R s v σ).subs = σ.subs ∧
    (doWriteAux R s v σ).disposed = σ.disposed ∧
    runsOf (doWriteAux R s v σ).trace = runsOf σ.trace ∧
    (σ.pending.Nodup → (doWriteAux R s v σ).pending.Nodup) := by
  unfold doWriteAux
  by_cases hv : v = σ.values s
  · rw [if_pos hv]
    exact ⟨h, rfl, rfl, rfl, rfl, fun hn => hn⟩
  · rw [if_neg hv]
    refine foldl_inv
      (fun (st : RState) => st.sched = true ∧ st.batchDepth = σ.batchDepth ∧
        st.subs = σ.subs ∧ st.disposed = σ.disposed ∧
        runsOf st.trace = runsOf σ.trace ∧ (σ.pending.Nodup → st.pending.Nodup))
      _ ?_ (σ.subs s) _ ?_
    · intro st a hst
      obtain ⟨h1, h2, h3, h4, h5, h6⟩ := hst
      by_cases hm : a ∈ st.subs s
      · rw [if_pos hm, if_pos h1]
        exact ⟨h1, h2, h3, h4, h5, fun hn => addOnce_nodup a st.pending (h6 hn)⟩
      · rw [if_neg hm]
        exact ⟨h1, h2, h3, h4, h5, h6⟩
    · refine ⟨h, rfl, rfl, rfl, ?_, fun hn => hn⟩
      simp [runsOf_append, runsOf]

/-- Running a writes-and-batches program while the deferring scheduler is
installed and a batch region is open never throws, never runs an effect,
preserves the depth, scheduler, subscriber sets and disposal flags, and
keeps `pending` duplicate-free. -/
theorem exec_defer (R : EffId → RState → RState) :
    ∀ (p : Prog), onlyBW p = true → ∀ (σ : RState), σ.sched = true → 1 ≤ σ.batchDepth →
    (execPAux R p σ).2 = false ∧
    (execPAux R p σ).1.sched = true ∧
    (execPAux R p σ).1.batchDepth = σ.batchDepth ∧
    (execPAux R p σ).1.subs = σ.subs ∧
    (execPAux R p σ).1.disposed = σ.disposed ∧
    runsOf (execPAux R p σ).1.trace = runsOf σ.trace ∧
    (σ.pending.Nodup → (execPAux R p σ).1.pending.Nodup) := by
  intro p
  induction p with
  | skip => intro _ σ hs hδ; exact ⟨rfl, hs, rfl, rfl, rfl, rfl, fun hn => hn⟩
  | seq p q ihp ihq =>
      intro hbw σ hs hδ
      simp only [onlyBW, Bool.and_eq_true] at hbw
      obtain ⟨f1, s1, d1, u1, i1, t1, n1⟩ := ihp hbw.1 σ hs hδ
      simp only [execPAux, f1, Bool.false_eq_true, if_false]
      obtain ⟨f2, s2, d2, u2, i2, t2, n2⟩ := ihq hbw.2 (execPAux R p σ).1 s1 (d1 ▸ hδ)
      exact ⟨f2, s2, d2.trans d1, u2.trans u1, i2.trans i1, t2.trans t1, fun hn => n2 (n1 hn)⟩
  | read s => intro hbw; simp [onlyBW] at hbw
  | write s v =>
      intro _ σ hs hδ
      obtain ⟨a, b, c, d, e, f⟩ := doWrite_defer R s v σ hs
      exact ⟨rfl, a, b, c, d, e, f⟩
  | writeF s f =>
      intro _ σ hs hδ
      obtain ⟨a, b, c, d, e, f2⟩ := doWrite_defer R s (f (σ.values s)) σ hs
      exact ⟨rfl, a, b, c, d, e, f2⟩
  | throwE => intro hbw; simp [onlyBW] at hbw
  | runEff e => intro hbw; simp [onlyBW] at hbw
  | batchP p ih =>
      intro hbw σ hs hδ
      simp only [onlyBW] at hbw
      have hne : ¬ σ.batchDepth = 0 := by omega
      simp only [execPAux, hne, if_false]
      obtain ⟨f1, s1, d1, u1, i1, t1, n1⟩ :=
        ih hbw {σ with batchDepth := σ.batchDepth + 1, sched := true} rfl (by simp)
      have hd3 : σ.batchDepth + 1 - 1 = σ.batchDepth := by omega
      have hne2 : ¬ ((execPAux R p {σ with batchDepth := σ.batchDepth + 1, sched := true}).1.batchDepth - 1 = 0) := by
        rw [d1]; simp; omega
      simp only [hne2, if_false]
      refine ⟨f1, hs, ?_, u1, i1, t1, n1⟩
      rw [d1]
      simp
  | iteV s v p q ihp ihq => intro hbw; simp [onlyBW] at hbw
  | memoBody src f out cell => intro hbw; simp [onlyBW] at hbw

/-- Outermost `batch` call over a writes-and-batches body, with inert and
non-disposed effects: no effect runs while the body executes; at the exit
the pending set — duplicate-free, in first-scheduled order — is drained,
running each of its effects exactly once, in order. -/
theorem batch_outer (env : EffId → Prog) (fuel : Nat) (p : Prog) (σ : RState)
    (hbw : onlyBW p = true) (h0 : σ.batchDepth = 0)
    (hin : ∀ i, inert (env i) = true) (hnd : ∀ i, σ.disposed i = false) :
    runsOf (runP env (fuel + 1) (.batchP p) σ).1.trace =
      runsOf σ.trace ++ (runP env (fuel + 1) p (batchEnter σ)).1.pending ∧
    (runP env (fuel + 1) p (batchEnter σ)).1.pending.Nodup := by
  simp only [runP]
  obtain ⟨f1, s1, d1, u1, i1, t1, n1⟩ :=
    exec_defer (runEffectN env (fuel + 1)) p hbw (batchEnter σ) rfl (by simp [batchEnter])
  have hδ : (execPAux (runEffectN env (fuel + 1)) p (batchEnter σ)).1.batchDepth = 1 := by
    rw [d1]; simp [batchEnter, h0]
  have e1 : execPAux (runEffectN env (fuel + 1)) (.batchP p) σ =
      (let r := execPAux (runEffectN env (fuel + 1)) p (batchEnter σ)
       let σ3 : RState := {r.1 with sched := σ.sched, batchDepth := r.1.batchDepth - 1}
       if σ3.batchDepth = 0 then
         (σ3.pending.foldl (fun st e => runEffectN env (fuel + 1) e st) {σ3 with pending := []}, r.2)
       else (σ3, r.2)) := by
    simp only [execPAux]
    rw [if_pos h0]
    rfl
  have hc : (({(execPAux (runEffectN env (fuel + 1)) p (batchEnter σ)).1 with
      sched := σ.sched,
      batchDepth := (execPAux (runEffectN env (fuel + 1)) p (batchEnter σ)).1.batchDepth - 1} : RState)).batchDepth = 0 := by
    show (execPAux (runEffectN env (fuel + 1)) p (batchEnter σ)).1.batchDepth - 1 = 0
    rw [hδ]
  rw [e1]
  simp only [if_pos hc]
  have hdrain := drain_inert env fuel
    ((execPAux (runEffectN env (fuel + 1)) p (batchEnter σ)).1.pending)
    ({(execPAux (runEffectN env (fuel + 1)) p (batchEnter σ)).1 with
      sched := σ.sched,
      batchDepth := (execPAux (runEffectN env (fuel + 1)) p (batchEnter σ)).1.batchDepth - 1,
      pending := []} : RState)
    (fun e _ => hin e)
    (fun e _ => by
      show (execPAux (runEffectN env (fuel + 1)) p (batchEnter σ)).1.disposed e = false
      rw [i1]; exact hnd e)
  refine ⟨?_, n1 (by simp [batchEnter])⟩
  rw [hdrain.1]
  show runsOf (execPAux (runEffectN env (fuel + 1)) p (batchEnter σ)).1.trace ++ _ =
    runsOf σ.trace ++ _
  rw [t1]
  rfl

/-- An effective deferred write to a signal whose subscriber set is `[e]`
adds `e` to the pending set (a no-op when `e` is already pending). -/
theorem doWrite_pending (R : EffId → RState → RState) (s : SigId) (v : JSVal) (σ : RState)
    (e : EffId) (hs : σ.sched = true) (hsub : σ.subs s = [e]) (hv : ¬ v = σ.values s) :
    (doWriteAux R s v σ).pending = addOnce e σ.pending := by
  unfold doWriteAux
  rw [if_neg hv, hsub]
  simp [hsub, hs]

/-- Deferred execution of a write sequence whose target signals all have
subscriber set `[e]`, starting with `e` already pending, keeps the pending
set exactly `[e]`. -/
theorem writes_pending (R : EffId → RState → RState) :
    ∀ (ws : List (SigId × JSVal)) (σ : RState) (e : EffId),
    σ.sched = true → σ.pending = [e] → (∀ sv ∈ ws, σ.subs sv.1 = [e]) →
    (execPAux R (writesProg ws) σ).1.pending = [e] ∧
    (execPAux R (writesProg ws) σ).1.sched = true ∧
    (execPAux R (writesProg ws) σ).1.subs = σ.subs := by
  intro ws
  induction ws with
  | nil =>
      intro σ e hs hp hsub
      simp only [writesProg, execPAux]
      exact ⟨hp, hs, trivial⟩
  | cons sv rest ih =>
      intro σ e hs hp hsub
      simp only [writesProg, execPAux, Bool.false_eq_true, if_false]
      by_cases hv : sv.2 = σ.values sv.1
      · have hid : doWriteAux R sv.1 sv.2 σ = σ := by
          unfold doWriteAux; rw [if_pos hv]
        rw [hid]
        exact ih σ e hs hp (fun x hx => hsub x (by simp [hx]))
      · obtain ⟨ds, dd, du, ddi, dt, dn⟩ := doWrite_defer R sv.1 sv.2 σ hs
        have hpend := doWrite_pending R sv.1 sv.2 σ e hs (hsub sv (by simp)) hv
        have hpend2 : (doWriteAux R sv.1 sv.2 σ).pending = [e] := by
          rw [hpend, hp]; simp [addOnce]
        have := ih (doWriteAux R sv.1 sv.2 σ) e ds hpend2
          (fun x hx => by rw [du]; exact hsub x (by simp [hx]))
        exact ⟨this.1, this.2.1, this.2.2.trans du⟩

theorem grandInv_refl (σ : RState) : GrandInv σ σ := ⟨rfl, fun _ _ h => h, Or.inl rfl⟩

theorem grandInv_trans {σ σ1 σ2 : RState} (h1 : GrandInv σ σ1) (h2 : GrandInv σ1 σ2) :
    GrandInv σ σ2 := by
  obtain ⟨a1, b1, c1⟩ := h1
  obtain ⟨a2, b2, c2⟩ := h2
  refine ⟨a2.trans a1, fun s e h => b2 s e (b1 s e h), ?_⟩
  rcases c2 with h | h
  · rw [h]; exact c1
  · rw [h, a1]; exact Or.inr rfl

theorem grandInv_of_onlySubs {σ σ1 : RState} (h : OnlySubs σ σ1)
    (hsub : ∀ s e, e ∈ σ.subs s → e ∈ σ1.subs s) : GrandInv σ σ1 := by
  obtain ⟨_, hc, hst, _⟩ := h
  exact ⟨hst, hsub, Or.inl hc⟩

theorem mem_addOnce_of_mem (a e : EffId) (l : List EffId) (h : a ∈ l) : a ∈ addOnce e l := by
  unfold addOnce
  split
  · exact h
  · exact List.mem_append_left _ h

theorem grandInv_fields {σ σ1 : RState} (h1 : σ1.effectStack = σ.effectStack)
    (h2 : σ1.subs = σ.subs) (h3 : σ1.currentEffect = σ.currentEffect) : GrandInv σ σ1 := by
  refine ⟨h1, ?_, Or.inl h3⟩
  intro s e he
  rw [h2]
  exact he

theorem grandInv_trackRead (s : SigId) (σ : RState) : GrandInv σ (trackRead s σ) := by
  unfold trackRead
  split
  · refine ⟨rfl, fun x a h => ?_, Or.inl rfl⟩
    by_cases hx : x = s
    · subst hx
      simpa using mem_addOnce_of_mem a _ _ h
    · simpa [hx] using h
  · exact grandInv_refl σ

theorem grandInv_doWrite (R : EffId → RState → RState)
    (hR : ∀ e σ, GrandInv σ (R e σ)) (s : SigId) (v : JSVal) (σ : RState) :
    GrandInv σ (doWriteAux R s v σ) := by
  unfold doWriteAux
  split
  · exact grandInv_refl σ
  · refine foldl_inv (fun (st : RState) => GrandInv σ st) _ ?_ (σ.subs s) _ ?_
    · intro st a hst
      by_cases hm : a ∈ st.subs s
      · rw [if_pos hm]
        by_cases hsch : st.sched = true
        · rw [if_pos hsch]
          exact grandInv_trans hst (grandInv_fields rfl rfl rfl)
        · rw [if_neg hsch]
          exact grandInv_trans hst (hR a st)
      · rw [if_neg hm]
        exact hst
    · exact grandInv_fields rfl rfl rfl

theorem grandInv_doWrite_from (R : EffId → RState → RState)
    (hR : ∀ e σ, GrandInv σ (R e σ)) (s : SigId) (v : JSVal) {σ σ1 : RState}
    (h : GrandInv σ σ1) : GrandInv σ (doWriteAux R s v σ1) :=
  grandInv_trans h (grandInv_doWrite R hR s v σ1)

theorem grandInv_foldlR (R : EffId → RState → RState)
    (hR : ∀ e σ, GrandInv σ (R e σ)) (es : List EffId) (σ0 σb : RState)
    (h : GrandInv σ0 σb) : GrandInv σ0 (es.foldl (fun st e => R e st) σb) :=
  foldl_inv (fun (st : RState) => GrandInv σ0 st)
    (fun st e => R e st) (fun st a hst => grandInv_trans hst (hR a st)) es σb h

theorem grandInv_stepFields {σ σ1 σ2 : RState} (h : GrandInv σ σ1)
    (h1 : σ2.effectStack = σ1.effectStack) (h2 : σ2.subs = σ1.subs)
    (h3 : σ2.currentEffect = σ1.currentEffect) : GrandInv σ σ2 :=
  grandInv_trans h (grandInv_fields h1 h2 h3)

theorem grandInv_batchedWrite (R : EffId → RState → RState)
    (hR : ∀ e σ, GrandInv σ (R e σ)) (s : SigId) (v : JSVal) (σ : RState) :
    GrandInv σ (batchedWriteAux R s v σ) := by
  by_cases hb : σ.batchDepth = 0
  · simp only [batchedWriteAux, if_pos hb]
    have h1 : GrandInv σ (doWriteAux R s v
        {σ with pending := [], batchDepth := σ.batchDepth + 1, sched := true}) :=
      grandInv_doWrite_from R hR s v (grandInv_fields rfl rfl rfl)
    split
    · exact grandInv_foldlR R hR _ _ _ (grandInv_stepFields h1 rfl rfl rfl)
    · exact grandInv_stepFields h1 rfl rfl rfl
  · simp only [batchedWriteAux, if_neg hb]
    have h1 : GrandInv σ (doWriteAux R s v
        {σ with batchDepth := σ.batchDepth + 1, sched := true}) :=
      grandInv_doWrite_from R hR s v (grandInv_fields rfl rfl rfl)
    split
    · exact grandInv_foldlR R hR _ _ _ (grandInv_stepFields h1 rfl rfl rfl)
    · exact grandInv_stepFields h1 rfl rfl rfl

theorem trackRead_cur (s : SigId) (σ : RState) :
    (trackRead s σ).currentEffect = σ.currentEffect := by
  unfold trackRead
  split <;> rfl

/-- Any program execution restores the effect stack, only grows subscriber
sets, and leaves the current effect either restored or at the stack top. -/
theorem exec_grand (R : EffId → RState → RState)
    (hR : ∀ e σ, GrandInv σ (R e σ)) :
    ∀ (p : Prog) (σ : RState), GrandInv σ (execPAux R p σ).1 := by
  intro p
  induction p with
  | skip => intro σ; exact grandInv_refl σ
  | seq p q ihp ihq =>
      intro σ
      simp only [execPAux]
      by_cases h2 : (execPAux R p σ).2
      · simp only [h2, if_true]; exact ihp σ
      · simp only [h2, if_false]; exact grandInv_trans (ihp σ) (ihq _)
  | read s => intro σ; exact grandInv_trackRead s σ
  | write s v => intro σ; exact grandInv_doWrite R hR s v σ
  | writeF s f => intro σ; exact grandInv_doWrite R hR s (f (σ.values s)) σ
  | throwE => intro σ; exact grandInv_refl σ
  | runEff e => intro σ; exact hR e σ
  | batchP p ih =>
      intro σ
      by_cases hb : σ.batchDepth = 0
      · simp only [execPAux, if_pos hb]
        have h1 : GrandInv σ (execPAux R p
            {σ with pending := [], batchDepth := σ.batchDepth + 1, sched := true}).1 :=
          grandInv_trans (grandInv_fields rfl rfl rfl) (ih _)
        split
        · exact grandInv_foldlR R hR _ _ _ (grandInv_stepFields h1 rfl rfl rfl)
        · exact grandInv_stepFields h1 rfl rfl rfl
      · simp only [execPAux, if_neg hb]
        have h1 : GrandInv σ (execPAux R p
            {σ with batchDepth := σ.batchDepth + 1, sched := true}).1 :=
          grandInv_trans (grandInv_fields rfl rfl rfl) (ih _)
        split
        · exact grandInv_foldlR R hR _ _ _ (grandInv_stepFields h1 rfl rfl rfl)
        · exact grandInv_stepFields h1 rfl rfl rfl
  | iteV s v p q ihp ihq =>
      intro σ
      simp only [execPAux]
      by_cases hv : σ.values s = v
      · simp only [hv, if_true]
        exact grandInv_trans (grandInv_trackRead s σ) (ihp _)
      · simp only [hv, if_false]
        exact grandInv_trans (grandInv_trackRead s σ) (ihq _)
  | memoBody src f out cell =>
      intro σ
      simp only [execPAux]
      split
      · obtain ⟨hst, hsub, _⟩ := grandInv_batchedWrite R hR out (f (σ.values src))
          {trackRead src σ with
            cells := fun c => if c = cell then f (σ.values src) else (trackRead src σ).cells c,
            currentEffect := none}
        obtain ⟨tst, tsub, _⟩ := grandInv_trackRead src σ
        refine ⟨hst.trans tst, fun s e he => hsub s e (tsub s e he), Or.inl ?_⟩
        exact trackRead_cur src σ
      · exact grandInv_trackRead src σ

/-- The effect runner satisfies the stack/subscription invariant at every
fuel. -/
theorem runEffectN_grand (env : EffId → Prog) :
    ∀ (fuel : Nat) (e : EffId) (σ : RState), GrandInv σ (runEffectN env fuel e σ) := by
  intro fuel
  induction fuel with
  | zero => intro e σ; exact grandInv_refl σ
  | succ fuel ih =>
      intro e σ
      by_cases hd : σ.disposed e
      · simp only [runEffectN, hd, if_true]
        exact grandInv_refl σ
      · simp only [runEffectN, hd, Bool.false_eq_true, if_false]
        obtain ⟨bst, bsub, _⟩ := exec_grand (runEffectN env fuel) ih (env e)
          {σ with effectStack := σ.effectStack ++ [e],
                  currentEffect := some e, trace := σ.trace ++ [REv.run e]}
        by_cases h2 : (execPAux (runEffectN env fuel) (env e)
            {σ with effectStack := σ.effectStack ++ [e],
                    currentEffect := some e, trace := σ.trace ++ [REv.run e]}).2
        · simp only [h2, if_true]
          refine ⟨?_, fun s a ha => bsub s a ha, Or.inr ?_⟩
          · show ((execPAux (runEffectN env fuel) (env e)
                {σ with effectStack := σ.effectStack ++ [e],
                        currentEffect := some e,
                        trace := σ.trace ++ [REv.run e]}).1.effectStack).dropLast =
              σ.effectStack
            rw [bst]
            simp
          · show ((execPAux (runEffectN env fuel) (env e)
                {σ with effectStack := σ.effectStack ++ [e],
                        currentEffect := some e,
                        trace := σ.trace ++ [REv.run e]}).1.effectStack).dropLast.getLast? =
              σ.effectStack.getLast?
            rw [bst]
            simp
        · simp only [h2, if_false]
          refine ⟨?_, fun s a ha => bsub s a ha, Or.inr ?_⟩
          · show ((execPAux (runEffectN env fuel) (env e)
                {σ with effectStack := σ.effectStack ++ [e],
                        currentEffect := some e,
                        trace := σ.trace ++ [REv.run e]}).1.effectStack).dropLast =
              σ.effectStack
            rw [bst]
            simp
          · show ((execPAux (runEffectN env fuel) (env e)
                {σ with effectStack := σ.effectStack ++ [e],
                        currentEffect := some e,
                        trace := σ.trace ++ [REv.run e]}).1.effectStack).dropLast.getLast? =
              σ.effectStack.getLast?
            rw [bst]
            simp

theorem onlyBW_writesProg (ws : List (SigId × JSVal)) : onlyBW (writesProg ws) = true := by
  induction ws with
  | nil => rfl
  | cons sv rest ih => simp [writesProg, onlyBW, ih]

theorem runEffectN_disposed (env : EffId → Prog) (fuel : Nat) (e : EffId) (σ : RState)
    (h : σ.disposed e = true) : runEffectN env fuel e σ = σ := by
  cases fuel with
  | zero => rfl
  | succ fuel => simp [runEffectN, h]

theorem abortCtrl_mono (σ : ResState) (k : Nat) (h : σ.aborted k = true) :
    (abortCtrl σ).aborted k = true := by
  unfold abortCtrl
  split
  · next j _ =>
      by_cases hkj : k = j <;> simp [hkj, h]
  · exact h

theorem stepR_abort_mono (st : RStep) (σ : ResState) (k : Nat) (h : σ.aborted k = true) :
    (stepR st σ).aborted k = true := by
  cases st with
  | refetch => exact abortCtrl_mono σ k h
  | settleOk k2 v =>
      unfold stepR
      by_cases h2 : σ.aborted k2 <;> simp [h2, h]
  | settleErr k2 er =>
      unfold stepR
      by_cases h2 : σ.aborted k2 <;> simp [h2, h]
  | dispose => exact abortCtrl_mono σ k h

theorem runSteps_abort_mono (l : List RStep) :
    ∀ (σ : ResState) (k : Nat), σ.aborted k = true → (runSteps l σ).aborted k = true := by
  induction l with
  | nil => intro σ k h; exact h
  | cons st rest ih =>
      intro σ k h
      simp only [runSteps, List.foldl_cons]
      exact ih (stepR st σ) k (stepR_abort_mono st σ k h)

theorem refetch_aborts (σ : ResState) (a : Nat) (h : σ.ctrl = some a) :
    (stepR .refetch σ).aborted a = true := by
  simp [stepR, abortCtrl, h]

theorem settleOk_aborted_id (σ : ResState) (k : Nat) (v : JSVal)
    (h : σ.aborted k = true) : stepR (.settleOk k v) σ = σ := by
  simp [stepR, h]

theorem settleErr_aborted_id (σ : ResState) (k : Nat) (er : JSVal)
    (h : σ.aborted k = true) : stepR (.settleErr k er) σ = σ := by
  simp [stepR, h]

theorem stepR_ctrl_settleOk (σ : ResState) (k : Nat) (v : JSVal) :
    (stepR (.settleOk k v) σ).ctrl = σ.ctrl := by
  unfold stepR
  by_cases h : σ.aborted k <;> simp [h]

theorem stepR_ctrl_settleErr (σ : ResState) (k : Nat) (er : JSVal) :
    (stepR (.settleErr k er) σ).ctrl = σ.ctrl := by
  unfold stepR
  by_cases h : σ.aborted k <;> simp [h]

theorem stepR_ctrl_dispose (σ : ResState) : (stepR .dispose σ).ctrl = σ.ctrl := by
  show (abortCtrl σ).ctrl = σ.ctrl
  unfold abortCtrl
  split <;> rfl

theorem mem_refetch_aborts (l : List RStep) :
    ∀ (σ : ResState) (a : Nat), σ.ctrl = some a → RStep.refetch ∈ l →
    (runSteps l σ).aborted a = true := by
  induction l with
  | nil => intro σ a _ hm; cases hm
  | cons st rest ih =>
      intro σ a hc hm
      simp only [runSteps, List.foldl_cons]
      cases st with
      | refetch =>
          exact runSteps_abort_mono rest (stepR .refetch σ) a (refetch_aborts σ a hc)
      | settleOk k v =>
          have hm2 : RStep.refetch ∈ rest := by
            cases hm with
            | tail _ h2 => exact h2
          exact ih (stepR (.settleOk k v) σ) a ((stepR_ctrl_settleOk σ k v).trans hc) hm2
      | settleErr k er =>
          have hm2 : RStep.refetch ∈ rest := by
            cases hm with
            | tail _ h2 => exact h2
          exact ih (stepR (.settleErr k er) σ) a ((stepR_ctrl_settleErr σ k er).trans hc) hm2
      | dispose =>
          have hm2 : RStep.refetch ∈ rest := by
            cases hm with
            | tail _ h2 => exact h2
          exact ih (stepR .dispose σ) a ((stepR_ctrl_dispose σ).trans hc) hm2

/-! ## Claims -/

/-- C1: evaluation of `hydrateDOMElement` at the failing input
`<div><p></p>x</div>` (virtual) against `<div><span></span>x</div>` (live).
The claim says one pass leaves the live subtree structurally equal to the
virtual tree; instead, after the replace branch the source reads
`domChild.nextSibling` from the node it has just detached via
`replaceChild` — which is `null` — so the original `"x"` text sibling is
never visited and a duplicate `"x"` is appended: the result has children
`p, "x", "x"` and is not structurally equal to the virtual tree. -/
theorem claim_C1 :
    hydrateNodeF 6 vC1 dC1 =
      (DNode.delem "div" none
        [DNode.delem "p" none [], DNode.dtext "x", DNode.dtext "x"], 2) ∧
    matchesVF 6 (hydrateNodeF 6 vC1 dC1).1 vC1 = false :=
  ⟨rfl, by decide⟩

/-- C3: a write whose candidate value — a literal, or the result of
applying the updater to the previous value — is `Object.is`-equal to the
current value is a complete identity on the reactive state: the returned
state is the input state itself (so the stored value is unchanged and no
subscriber is scheduled, invoked, or recorded in the trace). -/
theorem claim_C3 (env : EffId → Prog) (fuel : Nat) (s : SigId) (σ : RState) :
    (∀ v, v = σ.values s → runP env fuel (.write s v) σ = (σ, false)) ∧
    (∀ f : JSVal → JSVal, f (σ.values s) = σ.values s →
      runP env fuel (.writeF s f) σ = (σ, false)) := by
  constructor
  · intro v h
    simp only [runP, execPAux]
    unfold doWriteAux
    rw [if_pos h]
  · intro f h
    simp only [runP, execPAux]
    unfold doWriteAux
    rw [if_pos h]

theorem claim_C3_witness :
    (JSVal.jint 0 = (initRState fun _ => JSVal.jint 0).values 3) ∧
    runP (fun _ => Prog.skip) 2 (.write 3 (JSVal.jint 0)) (initRState fun _ => JSVal.jint 0) =
      (initRState fun _ => JSVal.jint 0, false) :=
  ⟨rfl, (claim_C3 (fun _ => Prog.skip) 2 3 (initRState fun _ => JSVal.jint 0)).1
    (JSVal.jint 0) rfl⟩

/-- C9: the keyed virtual list `[li key=1, li key=2, li key=3]` reconciled
against live nodes ordered `[3, 1, 2]`: the engine finds each keyed match
by scanning forward among the remaining siblings and moves the live node
into position, performing zero `createDOMElementForHydration` calls, and
the final DOM order is `[1, 2, 3]`. -/
theorem claim_C9 :
    hydrateNodeF 6 (VNode.elem "ul" none [vLi "1", vLi "2", vLi "3"])
        (DNode.delem "ul" none [dLi "3", dLi "1", dLi "2"]) =
      (DNode.delem "ul" none [dLi "1", dLi "2", dLi "3"], 0) := rfl

/-- C6: the memo's output signal is written only when the recomputed value
differs from the cache (when the cache is initialized and the recomputation
equals it, the memo body is a pure tracked read and writes nothing); and in
the concrete scenario `m = s % 2` with `s = 1 → 3 → 5`, the memo's internal
effect (effect 0) runs 3 times, the output signal (signal 1) changes once
in total — zero times after the initial settle — and the external
subscriber (effect 1) runs exactly once. -/
theorem claim_C6 :
    (∀ (R : EffId → RState → RState) (src out : SigId) (cell : Nat)
       (f : JSVal → JSVal) (σ : RState),
       σ.inits cell = true → f (σ.values src) = σ.cells cell →
       execPAux R (.memoBody src f out cell) σ = (trackRead src σ, false)) ∧
    stC6d.trace.count (REv.run 0) = 3 ∧
    stC6d.trace.count (REv.sigchange 1) = 1 ∧
    (stC6d.trace.drop stC6a.trace.length).count (REv.sigchange 1) = 0 ∧
    stC6d.trace.count (REv.run 1) = 1 := by
  refine ⟨?_, by decide, by decide, by decide, by decide⟩
  intro R src out cell f σ h1 h2
  simp only [execPAux]
  rw [if_neg (by simp [h1, h2])]

theorem claim_C6_witness :
    stC6b.inits 0 = true ∧ m2 (stC6b.values 0) = stC6b.cells 0 ∧
    execPAux (runEffectN envC6 8) (.memoBody 0 m2 1 0) stC6b = (trackRead 0 stC6b, false) :=
  ⟨by decide, by decide,
    claim_C6.1 (runEffectN envC6 8) 0 1 0 m2 stC6b (by decide) (by decide)⟩

/-- C5 counterexample: effect 0 reads signal 0 only while signal 1 is 0.
After signal 1 becomes 1, a further write to signal 0 re-runs effect 0 — a
run triggered by signal 0 in which the effect does not read signal 0 — yet
effect 0 is still in signal 0's subscriber set afterwards (`stC5c`), and it
remains there even after being disposed and after another triggering write
(`stC5d`): subscriber sets are never pruned, contradicting the claim. -/
theorem counterexample_C5 :
    stC5c.subs 0 = [0] ∧ runsOf stC5c.trace = [0, 0, 0] ∧
    stC5d.subs 0 = [0] ∧ stC5d.disposed 0 = true := by decide

/-- C5 as amended: subscriptions are never removed — once an effect is in a
signal's subscriber set it stays there through any further execution,
including after disposal and after runs in which it no longer reads the
signal; a disposed effect's scheduled runs are no-ops, which is what keeps
the stale entries harmless. -/
theorem claim_C5 (env : EffId → Prog) (fuel : Nat) (p : Prog) (σ : RState)
    (s : SigId) (e : EffId) (h : e ∈ σ.subs s) :
    e ∈ (runP env fuel p σ).1.subs s ∧
    (σ.disposed e = true → runEffectN env fuel e σ = σ) := by
  refine ⟨?_, fun hd => runEffectN_disposed env fuel e σ hd⟩
  exact (exec_grand (runEffectN env fuel) (runEffectN_grand env fuel) p σ).2.1 s e h

theorem claim_C5_witness :
    (0 : EffId) ∈ stC5c.subs 0 ∧
    ((0 : EffId) ∈ (runP envC5 6 (.write 0 (.jint 77)) stC5c).1.subs 0 ∧
     (stC5c.disposed 0 = true → runEffectN envC5 6 0 stC5c = stC5c)) :=
  ⟨by decide, claim_C5 envC5 6 (.write 0 (.jint 77)) stC5c 0 0 (by decide)⟩

/-- C2: for a batch body made of signal writes and nested batch regions
(over inert, non-disposed effects), (1) the effects that run are exactly
the pending set collected while the body executed — drained at the
outermost exit, each exactly once (the list is duplicate-free), in the
order they were first scheduled (the insertion order of the pending set) —
and (2) a batch of N writes, the first effective, to signals all of whose
subscriber sets are `[e]`, runs `e` exactly once. -/
theorem claim_C2 (env : EffId → Prog) (fuel : Nat) (p : Prog) (σ : RState)
    (hbw : onlyBW p = true) (h0 : σ.batchDepth = 0)
    (hin : ∀ i, inert (env i) = true) (hnd : ∀ i, σ.disposed i = false) :
    (runsOf (runP env (fuel + 1) (.batchP p) σ).1.trace =
       runsOf σ.trace ++ (runP env (fuel + 1) p (batchEnter σ)).1.pending ∧
     (runP env (fuel + 1) p (batchEnter σ)).1.pending.Nodup) ∧
    (∀ (e : EffId) (s0 : SigId) (v0 : JSVal) (ws : List (SigId × JSVal)),
       σ.subs s0 = [e] → (∀ sv ∈ ws, σ.subs sv.1 = [e]) → ¬ v0 = σ.values s0 →
       runsOf (runP env (fuel + 1) (.batchP (writesProg ((s0, v0) :: ws))) σ).1.trace =
         runsOf σ.trace ++ [e]) := by
  refine ⟨batch_outer env fuel p σ hbw h0 hin hnd, ?_⟩
  intro e s0 v0 ws hs0 hws hv0
  have hmain := batch_outer env fuel (writesProg ((s0, v0) :: ws)) σ
    (onlyBW_writesProg _) h0 hin hnd
  have hpend : (runP env (fuel + 1) (writesProg ((s0, v0) :: ws)) (batchEnter σ)).1.pending
      = [e] := by
    simp only [runP, writesProg, execPAux, Bool.false_eq_true, if_false]
    have h1 := doWrite_pending (runEffectN env (fuel + 1)) s0 v0 (batchEnter σ) e rfl hs0 hv0
    have h1e : (doWriteAux (runEffectN env (fuel + 1)) s0 v0 (batchEnter σ)).pending = [e] := by
      rw [h1]
      simp [addOnce, batchEnter]
    obtain ⟨ds, _, du, _, _, _⟩ :=
      doWrite_defer (runEffectN env (fuel + 1)) s0 v0 (batchEnter σ) rfl
    have hrest := writes_pending (runEffectN env (fuel + 1)) ws
      (doWriteAux (runEffectN env (fuel + 1)) s0 v0 (batchEnter σ)) e ds h1e
      (fun sv hsv => by
        rw [du]
        exact hws sv hsv)
    exact hrest.1
  rw [hmain.1, hpend]

theorem claim_C2_witness :
    onlyBW (writesProg [((0 : SigId), JSVal.jint 1), (1, JSVal.jint 2)]) = true ∧
    stC2w.batchDepth = 0 ∧ stC2w.subs 0 = [5] ∧ ¬ JSVal.jint 1 = stC2w.values 0 ∧
    runsOf (runP (fun _ => Prog.skip) 4
        (.batchP (writesProg [((0 : SigId), JSVal.jint 1), (1, JSVal.jint 2)])) stC2w).1.trace =
      runsOf stC2w.trace ++ [5] :=
  ⟨by decide, rfl, by decide, by decide,
    (claim_C2 (fun _ => Prog.skip) 3
      (writesProg [((0 : SigId), JSVal.jint 1), (1, JSVal.jint 2)]) stC2w
      (by decide) rfl (fun _ => rfl) (fun _ => rfl)).2
      5 0 (JSVal.jint 1) [(1, JSVal.jint 2)] rfl (by decide) (by decide)⟩

/-- C7: running a non-disposed effect restores the effect stack and the
current effect (when the usual alignment `currentEffect = stack top`
holds), catches a thrown body at the effect boundary — the runner returns a
state rather than propagating, appending the `console.error` log event when
the body threw — and subscriptions are retained.  In the concrete
scenario (effect 0 reads signal 0 then throws; then signal 0 is written)
the effect runs twice with two logged errors, an empty final stack, and is
still subscribed — it re-ran on the next triggering write. -/
theorem claim_C7 (env : EffId → Prog) (fuel : Nat) (e : EffId) (σ : RState)
    (hd : σ.disposed e = false) (halign : σ.currentEffect = σ.effectStack.getLast?) :
    (runEffectN env (fuel + 1) e σ).effectStack = σ.effectStack ∧
    (runEffectN env (fuel + 1) e σ).currentEffect = σ.currentEffect ∧
    ((execPAux (runEffectN env fuel) (env e)
        {σ with effectStack := σ.effectStack ++ [e],
                currentEffect := some e, trace := σ.trace ++ [REv.run e]}).2 = true →
      (runEffectN env (fuel + 1) e σ).trace =
        (execPAux (runEffectN env fuel) (env e)
          {σ with effectStack := σ.effectStack ++ [e],
                  currentEffect := some e, trace := σ.trace ++ [REv.run e]}).1.trace
          ++ [REv.errlog e]) ∧
    (∀ s i, i ∈ σ.subs s → i ∈ (runEffectN env (fuel + 1) e σ).subs s) ∧
    runsOf stC7b.trace = [0, 0] ∧
    stC7b.trace.count (REv.errlog 0) = 2 ∧
    stC7b.effectStack = [] ∧ stC7b.subs 0 = [0] := by
  obtain ⟨g1, g2, g3⟩ := runEffectN_grand env (fuel + 1) e σ
  refine ⟨g1, ?_, ?_, fun s i hi => g2 s i hi, by decide, by decide, by decide, by decide⟩
  · rcases g3 with h | h
    · exact h
    · rw [h]
      exact halign.symm
  · intro h2
    simp only [runEffectN, hd, Bool.false_eq_true, if_false, h2, if_true]

theorem claim_C7_witness :
    (initRState fun _ => JSVal.undef).disposed 0 = false ∧
    (initRState fun _ => JSVal.undef).currentEffect =
      (initRState fun _ => JSVal.undef).effectStack.getLast? ∧
    (runEffectN envC7 5 0 (initRState fun _ => JSVal.undef)).effectStack =
      (initRState fun _ => JSVal.undef).effectStack :=
  ⟨rfl, rfl, (claim_C7 envC7 4 0 (initRState fun _ => JSVal.undef) rfl rfl).1⟩

/-- C4: once a second `refetch` has been issued (anywhere in the steps
between fetch A's start and its settlement), A's settlement — resolution or
rejection — is a complete no-op on the resource state, so the data signal
reflects the newer fetch's result under every interleaving.  Concretely:
start A, start B, B resolves 42, then A resolves 7 late — `data` is 42. -/
theorem claim_C4 (σ : ResState) (mid : List RStep) (a : Nat)
    (hmid : RStep.refetch ∈ mid) (ha : (stepR .refetch σ).ctrl = some a) :
    (∀ v, stepR (.settleOk a v) (runSteps mid (stepR .refetch σ)) =
        runSteps mid (stepR .refetch σ)) ∧
    (∀ er, stepR (.settleErr a er) (runSteps mid (stepR .refetch σ)) =
        runSteps mid (stepR .refetch σ)) ∧
    (runSteps [RStep.refetch, RStep.refetch, RStep.settleOk 1 (JSVal.jint 42),
        RStep.settleOk 0 (JSVal.jint 7)] resInit).dataV = JSVal.jint 42 := by
  have hab : (runSteps mid (stepR .refetch σ)).aborted a = true :=
    mem_refetch_aborts mid (stepR .refetch σ) a ha hmid
  exact ⟨fun v => settleOk_aborted_id _ a v hab,
         fun er => settleErr_aborted_id _ a er hab, rfl⟩

theorem claim_C4_witness :
    RStep.refetch ∈ [RStep.refetch] ∧
    (stepR .refetch resInit).ctrl = some 0 ∧
    stepR (.settleOk 0 (JSVal.jint 9)) (runSteps [RStep.refetch] (stepR .refetch resInit)) =
      runSteps [RStep.refetch] (stepR .refetch resInit) :=
  ⟨by decide, rfl,
    (claim_C4 resInit [RStep.refetch] 0 (by decide) rfl).1 (JSVal.jint 9)⟩

/-- C10: after a fetch's abort token has fired, its settlement — including
the `finally` branch that would clear `loading` — writes none of the three
signals (it is the identity on the resource state); `dispose` itself
changes no signal, so disposing mid-flight leaves `loading() = true` and
`data`/`error` unchanged, as the concrete run shows. -/
theorem claim_C10 (σ : ResState) (k : Nat) (hk : σ.aborted k = true) :
    (∀ v, stepR (.settleOk k v) σ = σ) ∧
    (∀ er, stepR (.settleErr k er) σ = σ) ∧
    (∀ (τ : ResState) (j : Nat), τ.ctrl = some j →
      signalsOf (stepR .dispose τ) = signalsOf τ ∧
      (∀ v, signalsOf (stepR (.settleOk j v) (stepR .dispose τ)) = signalsOf τ) ∧
      (∀ er, signalsOf (stepR (.settleErr j er) (stepR .dispose τ)) = signalsOf τ)) ∧
    (runSteps [RStep.refetch, RStep.dispose, RStep.settleOk 0 (JSVal.jint 9)]
        resInit).loadingV = JSVal.jbool true ∧
    (runSteps [RStep.refetch, RStep.dispose, RStep.settleOk 0 (JSVal.jint 9)]
        resInit).dataV = JSVal.jnull := by
  refine ⟨fun v => settleOk_aborted_id σ k v hk,
          fun er => settleErr_aborted_id σ k er hk, ?_, rfl, rfl⟩
  intro τ j hj
  have hd : (stepR .dispose τ).aborted j = true := by
    show (abortCtrl τ).aborted j = true
    simp [abortCtrl, hj]
  have hsig : signalsOf (stepR .dispose τ) = signalsOf τ := by
    show signalsOf (abortCtrl τ) = signalsOf τ
    simp [abortCtrl, signalsOf, hj]
  refine ⟨hsig, fun v => ?_, fun er => ?_⟩
  · rw [settleOk_aborted_id _ j v hd]
    exact hsig
  · rw [settleErr_aborted_id _ j er hd]
    exact hsig

theorem claim_C10_witness :
    (stepR .dispose (stepR .refetch resInit)).aborted 0 = true ∧
    stepR (.settleOk 0 (JSVal.jint 5)) (stepR .dispose (stepR .refetch resInit)) =
      stepR .dispose (stepR .refetch resInit) :=
  ⟨rfl, (claim_C10 (stepR .dispose (stepR .refetch resInit)) 0 rfl).1 (JSVal.jint 5)⟩

/-- C8 counterexample: the package entry point re-exports the `cowgirl` of
`client/index.js`, which never inspects its container argument: applied to
an invalid mount target (`null`) it returns normally with its
initialization actions instead of throwing; the validating `cowgirl` lives
in `client.js` and is not the exported one. -/
theorem counterexample_C8 :
    ClientIndex.cowgirl "/" none "en" (Sum.inr JsRef.nullRef) =
      Except.ok [MountAction.initHmr, MountAction.clearPreferredLanguage,
        MountAction.setLanguage "en" false, MountAction.setupNavigation,
        MountAction.initComponents] ∧
    isHTMLElement (resolveContainer (fun _ => none) (Sum.inr JsRef.nullRef)) = false ∧
    ClientJs.cowgirl (fun _ => none) (Sum.inr JsRef.nullRef) =
      Except.error "cumstack: Container must be a valid HTMLElement or selector" :=
  ⟨rfl, rfl, rfl⟩

/-- C8 as amended: the `cowgirl` of `client.js` throws synchronously on an
invalid mount target, before the router is created or the render effect is
constructed; but the `cowgirl` the package entry point exports (from
`client/index.js`) ignores the container entirely and always returns
normally, for every pathname and language configuration. -/
theorem clientIndex_cowgirl_isOk (pathname : String) (userLang : Option String)
    (browserLang : String) (c : MountTarget) :
    ∃ acts, ClientIndex.cowgirl pathname userLang browserLang c = Except.ok acts := by
  simp only [ClientIndex.cowgirl]
  cases ((splitSlash pathname).filter (fun s => decide (s ≠ ""))).head? with
  | none =>
      refine ⟨[MountAction.initHmr, MountAction.clearPreferredLanguage,
        MountAction.setLanguage (userLang.getD browserLang) false,
        MountAction.setupNavigation, MountAction.initComponents], ?_⟩
      rfl
  | some seg =>
      by_cases hl : seg.length = 2
      · refine ⟨[MountAction.initHmr, MountAction.setLanguage seg true,
          MountAction.setupNavigation, MountAction.initComponents], ?_⟩
        simp [hl]
      · refine ⟨[MountAction.initHmr, MountAction.clearPreferredLanguage,
          MountAction.setLanguage (userLang.getD browserLang) false,
          MountAction.setupNavigation, MountAction.initComponents], ?_⟩
        simp [hl]

theorem claim_C8 (doc : String → Option JsRef) (c : MountTarget)
    (h : isHTMLElement (resolveContainer doc c) = false) :
    ClientJs.cowgirl doc c =
      Except.error "cumstack: Container must be a valid HTMLElement or selector" ∧
    (∀ pathname userLang browserLang, ∃ acts,
      ClientIndex.cowgirl pathname userLang browserLang c = Except.ok acts) := by
  constructor
  · unfold ClientJs.cowgirl
    simp [h]
  · exact fun pathname userLang browserLang =>
      clientIndex_cowgirl_isOk pathname userLang browserLang c

theorem claim_C8_witness :
    isHTMLElement (resolveContainer (fun _ => none) (Sum.inl "#app")) = false ∧
    ClientJs.cowgirl (fun _ => none) (Sum.inl "#app") =
      Except.error "cumstack: Container must be a valid HTMLElement or selector" :=
  ⟨rfl, (claim_C8 (fun _ => none) (Sum.inl "#app") rfl).1⟩
